import Mathlib

/-!
Shallow embedding of the resilient extraction engine of `src/scrapper.py`:
the merge-on-write record store (`save_operator_data`, `cleanup_operator_files`),
the retrying locator resolver (`safe_find_element`, `safe_find_elements`),
navigation (`load_operator_page`), the operator-list fetch loop
(`get_all_operators`), the extraction pipeline and batch orchestration
(`process_operator`, `process_all_operators`), and the mastery-material
distribution (`extract_mastery_upgrades`).
-/

namespace Llamiya

/-- Field values stored in operator records: scalar strings, ordered lists,
or nested string-keyed mappings, mirroring the JSON values the scraper
writes. -/
inductive FieldValue : Type where
  | str : String → FieldValue
  | vlist : List FieldValue → FieldValue
  | vmap : List (String × FieldValue) → FieldValue

/-- Lookup in a Python-style dict modelled as an ordered association list:
the first binding of the key, if any (Python dicts have unique keys, so
first = only). -/
def dictGet {V : Type} (d : List (String × V)) (k : String) : Option V :=
  (d.find? (fun p => p.1 == k)).map Prod.snd

/-- `d[k] = v` on a Python-style dict: overwrite the binding in place if
the key is present, otherwise append it at the end (Python dicts preserve
insertion order). -/
def dictInsert {V : Type} (d : List (String × V)) (k : String) (v : V) :
    List (String × V) :=
  if d.any (fun p => p.1 == k) then
    d.map (fun p => if p.1 == k then (k, v) else p)
  else
    d ++ [(k, v)]

/-- The merge loop of `save_operator_data`:
`for key, value in data_to_add.items(): operator_data[key] = value`. -/
def dictMerge {V : Type} (dst src : List (String × V)) : List (String × V) :=
  src.foldl (fun acc p => dictInsert acc p.1 p.2) dst

/-- The record store: one persisted JSON record per operator name
(`operator/<name>.json`); `none` means the file does not exist. -/
def Store (V : Type) : Type := String → Option (List (String × V))

/-- The store with no persisted records. -/
def emptyStore {V : Type} : Store V := fun _ => none

/-- `get` of the Record Store contract: read the persisted record. -/
def getRecord {V : Type} (st : Store V) (name : String) :
    Option (List (String × V)) :=
  st name

/-- `save_operator_data` from `src/scrapper.py`: load the existing record
if the file exists (else start from `{}`), overlay `data_to_add`'s fields
by dict assignment, and write the result back. -/
def save_operator_data {V : Type} (st : Store V) (name : String)
    (data_to_add : List (String × V)) : Store V :=
  fun n =>
    if n = name then some (dictMerge ((st name).getD []) data_to_add)
    else st n

/-- Field lookup through the store: the value of field `f` in the
persisted record of `E`, if both exist. -/
def storeField {V : Type} (st : Store V) (E f : String) : Option V :=
  dictGet ((st E).getD []) f

/-- `cleanup_operator_files` from `src/scrapper.py`: with a name, delete
exactly that operator's JSON file (if present); with no name, delete every
operator JSON file. -/
def cleanup_operator_files {V : Type} (st : Store V) :
    Option String → Store V
  | some name => fun n => if n = name then none else st n
  | none => fun _ => none

/-- Retry bound shared by every retry loop in `src/scrapper.py`
(`MAX_RETRY_ATTEMPTS = 3`). -/
def MAX_RETRY_ATTEMPTS : Nat := 3

/-- Result of one `safe_find_element` call: the element found (if any),
how many document queries were issued, how many inter-attempt 0.5s sleeps
happened, and whether the exhaustion failure message was printed (the
required-locator failure signal, printed only when `optional=False`). -/
structure LocateResult (A : Type) where
  found : Option A
  probes : Nat
  sleeps : Nat
  signaled : Bool
deriving DecidableEq, Repr

/-- The retry loop of `safe_find_element`, recursing on the remaining
attempt budget (`remaining = MAX_RETRY_ATTEMPTS - retry_count`). The
environment `query` says what the document query at each attempt index
returns: `some e` when the element is found, `none` when one of the three
transient exceptions (`NoSuchElementException`, `TimeoutException`,
`StaleElementReferenceException`) is raised. A found element returns at
once; a transient failure on the last attempt returns `None`, printing
the failure message iff the element is required; otherwise the loop
sleeps and retries. -/
def sfeLoop {A : Type} (query : Nat → Option A) (optional : Bool) :
    Nat → Nat → Nat → LocateResult A
  | 0, probes, sleeps => ⟨none, probes, sleeps, false⟩
  | remaining + 1, probes, sleeps =>
    match query probes with
    | some e => ⟨some e, probes + 1, sleeps, false⟩
    | none =>
      if remaining = 0 then ⟨none, probes + 1, sleeps, !optional⟩
      else sfeLoop query optional remaining (probes + 1) (sleeps + 1)

/-- `safe_find_element` from `src/scrapper.py`, abstracted over the
document query. -/
def safe_find_element {A : Type} (query : Nat → Option A)
    (optional : Bool) : LocateResult A :=
  sfeLoop query optional MAX_RETRY_ATTEMPTS 0 0

/-- Result of one `safe_find_elements` call: the element list (empty on
exhaustion), queries issued, and inter-attempt sleeps. -/
structure LocateAllResult (A : Type) where
  found : List A
  probes : Nat
  sleeps : Nat
deriving DecidableEq, Repr

/-- The retry loop of `safe_find_elements`. The query either returns the
(possibly empty) list of matches — the code then executes
`return elements` immediately — or raises one of the three transient
exceptions (`.error ()`), which is the only path that retries; on
exhaustion the loop returns `[]`. -/
def sfesLoop {A : Type} (query : Nat → Except Unit (List A)) :
    Nat → Nat → Nat → LocateAllResult A
  | 0, probes, sleeps => ⟨[], probes, sleeps⟩
  | remaining + 1, probes, sleeps =>
    match query probes with
    | .ok es => ⟨es, probes + 1, sleeps⟩
    | .error _ =>
      if remaining = 0 then ⟨[], probes + 1, sleeps⟩
      else sfesLoop query remaining (probes + 1) (sleeps + 1)

/-- `safe_find_elements` from `src/scrapper.py`, abstracted over the
document query. -/
def safe_find_elements {A : Type} (query : Nat → Except Unit (List A)) :
    LocateAllResult A :=
  sfesLoop query MAX_RETRY_ATTEMPTS 0 0

/-- The retry loop of `load_operator_page`: each attempt is
`driver.get(url)` plus the readiness-marker wait, modelled by the
environment `attempt`; success returns `True` at once, a failed attempt
other than the last sleeps 1s and retries, the last returns `False`. -/
def lopLoop (attempt : Nat → Bool) : Nat → Nat → Nat → Bool × Nat × Nat
  | 0, probes, sleeps => (false, probes, sleeps)
  | remaining + 1, probes, sleeps =>
    if attempt probes then (true, probes + 1, sleeps)
    else if remaining = 0 then (false, probes + 1, sleeps)
    else lopLoop attempt remaining (probes + 1) (sleeps + 1)

/-- `load_operator_page` from `src/scrapper.py`, abstracted over the
page-load-and-readiness attempt; returns (success, attempts made, sleeps). -/
def load_operator_page (attempt : Nat → Bool) : Bool × Nat × Nat :=
  lopLoop attempt MAX_RETRY_ATTEMPTS 0 0

/-- The operator-list fetch loop of `get_all_operators`: an attempt
either yields the (possibly empty) list of operator names (`.ok`) or
raises (`.error`); a nonempty list breaks out of the loop, an empty list
or an exception increments the retry count; on exhaustion the accumulated
list is still `[]`. Returns (names, attempts made). -/
def gaoLoop (attempt : Nat → Except Unit (List String)) :
    Nat → Nat → List String × Nat
  | 0, probes => ([], probes)
  | remaining + 1, probes =>
    match attempt probes with
    | .ok names =>
      if names.isEmpty then gaoLoop attempt remaining (probes + 1)
      else (names, probes + 1)
    | .error _ => gaoLoop attempt remaining (probes + 1)

/-- `get_all_operators` from `src/scrapper.py`, abstracted over one fetch
attempt. -/
def get_all_operators (attempt : Nat → Except Unit (List String)) :
    List String × Nat :=
  gaoLoop attempt MAX_RETRY_ATTEMPTS 0

/-- A persisted operator record: string-keyed fields of `FieldValue`s. -/
abbrev OpRecord : Type := List (String × FieldValue)

/-- Environment of one `process_operator` run: whether
`load_operator_page` (and driver availability) succeeds, and what each of
the pipeline's extractor units produces on the loaded page — `some r`
when the unit extracts a nonempty record `r` (which it saves), `none`
when it fails or finds nothing (each `extract_*` function wraps its whole
body in `try/except Exception`, so a failing unit saves nothing and the
next unit still runs). -/
structure OperatorRun where
  loadOk : Bool
  outcomes : List (Option OpRecord)

/-- The extractor pipeline of `process_operator`: the `extract_*` calls
run in their fixed order; a unit that produced a nonempty record calls
`save_operator_data`, a failed unit changes nothing, and either way the
remaining units run. -/
def run_pipeline (st : Store FieldValue) (name : String) :
    List (Option OpRecord) → Store FieldValue
  | [] => st
  | none :: rest => run_pipeline st name rest
  | some data :: rest =>
    run_pipeline (save_operator_data st name data) name rest

/-- Number of Record Store merges a pipeline run performs: one
`save_operator_data` call per successful unit. -/
def pipelineMerges (outcomes : List (Option OpRecord)) : Nat :=
  outcomes.countP Option.isSome

/-- `process_operator` from `src/scrapper.py`: optional per-operator
cleanup, then page load; on load failure, return `False` with no merge
performed; on success, `operator_info` immediately persists
`{"info": {}}` (one merge), the seven extractors run, and the result is
`True`. Returns (store, success flag, number of merges performed for this
operator). -/
def process_operator (st : Store FieldValue) (name : String)
    (env : OperatorRun) (clean_before_run : Bool) :
    Store FieldValue × Bool × Nat :=
  let st0 :=
    if clean_before_run then cleanup_operator_files st (some name) else st
  if env.loadOk then
    let st1 := save_operator_data st0 name [("info", FieldValue.vmap [])]
    (run_pipeline st1 name env.outcomes, true, pipelineMerges env.outcomes + 1)
  else (st0, false, 0)

/-- The per-operator loop of `process_all_operators`: each operator is
processed with `clean_before_run=False`; a `True` outcome increments
`successful`, a `False` outcome increments `failed`, and the (possibly
recreated) driver/store state threads into the next iteration. -/
def paoLoop (st : Store FieldValue) (successful failed : Nat) :
    List (String × OperatorRun) → Store FieldValue × Nat × Nat
  | [] => (st, successful, failed)
  | op :: rest =>
    let r := process_operator st op.1 op.2 false
    if r.2.1 then paoLoop r.1 (successful + 1) failed rest
    else paoLoop r.1 successful (failed + 1) rest

/-- `process_all_operators` from `src/scrapper.py`: optional full cleanup
(`cleanup_operator_files()` with no name), then the per-operator loop.
Returns (store, successful, failed). -/
def process_all_operators (st : Store FieldValue)
    (ops : List (String × OperatorRun)) (clean_before_run : Bool) :
    Store FieldValue × Nat × Nat :=
  let st0 := if clean_before_run then cleanup_operator_files st none else st
  paoLoop st0 0 0 ops

/-- The skill keys of the `mastery_costs` accumulator, in loop order. -/
def skillKeys : List String := ["Skill1", "Skill2", "Skill3"]

/-- The mastery keys of the `mastery_costs` accumulator, in loop order. -/
def masteryKeys : List String := ["M1", "M2", "M3"]

/-- The distribution step of `extract_mastery_upgrades`: given the flat
ordered list of collected mastery materials,
`materials_per_mastery = len // 9`; when positive, the nested loops walk
Skill1..Skill3 × M1..M3 in order, handing each slot the slice
`all[material_index : min(material_index + per, len)]` and advancing
`material_index`; when zero the initial all-empty slots are kept. The
result lists the nine (skill, mastery) slots in order with their assigned
materials. -/
def extract_mastery_upgrades {M : Type} (ms : List M) :
    List ((String × String) × List M) :=
  let per := ms.length / 9
  if 0 < per then
    (skillKeys.foldl
      (fun acc skill =>
        masteryKeys.foldl
          (fun acc2 mastery =>
            let endIdx := min (acc2.2 + per) ms.length
            (acc2.1 ++
              [((skill, mastery), (ms.drop acc2.2).take (endIdx - acc2.2))],
              endIdx))
          acc)
      (([] : List ((String × String) × List M)), 0)).1
  else
    skillKeys.flatMap fun skill =>
      masteryKeys.map fun mastery => ((skill, mastery), ([] : List M))

/-- The materials the claim says slot `k` (0-based, in
Skill1..Skill3 × M1..M3 order) receives: the `k`-th consecutive block of
`len // 9` materials. -/
def masterySlice {M : Type} (ms : List M) (k : Nat) : List M :=
  (ms.drop (k * (ms.length / 9))).take (ms.length / 9)

theorem dictGet_eq_none_of_not_mem {V : Type} (d : List (String × V))
    (k : String) (h : k ∉ d.map Prod.fst) : dictGet d k = none := by
  unfold dictGet
  have hfind : d.find? (fun p => p.1 == k) = none := by
    rw [List.find?_eq_none]
    intro p hp hpk
    exact h (List.mem_map.2 ⟨p, hp, by simpa using hpk⟩)
  rw [hfind]
  rfl

theorem find?_overwrite_self {V : Type} (d : List (String × V)) (k : String)
    (v : V) (hany : d.any (fun p => p.1 == k) = true) :
    (d.map (fun p => if p.1 == k then (k, v) else p)).find?
      (fun p => p.1 == k) = some (k, v) := by
  induction d with
  | nil => simp at hany
  | cons p d ih =>
    by_cases hp : (p.1 == k) = true
    · simp only [List.map_cons, hp, if_true]
      simp [List.find?_cons]
    · have htail : d.any (fun p => p.1 == k) = true := by
        simp only [List.any_cons, hp, Bool.false_or] at hany
        exact hany
      simp only [List.map_cons, hp, if_false, Bool.false_eq_true]
      simp only [List.find?_cons, hp]
      exact ih htail

theorem find?_overwrite_ne {V : Type} (d : List (String × V)) (k k' : String)
    (v : V) (h : k' ≠ k) :
    (d.map (fun p => if p.1 == k then (k, v) else p)).find?
      (fun p => p.1 == k') = d.find? (fun p => p.1 == k') := by
  induction d with
  | nil => rfl
  | cons p d ih =>
    by_cases hp : (p.1 == k) = true
    · have hpk : p.1 = k := by simpa using hp
      have h1 : ¬ ((k, v).1 == k') = true := by
        simp only [beq_iff_eq]
        exact fun hh => h hh.symm
      have h2 : ¬ (p.1 == k') = true := by
        simp only [beq_iff_eq, hpk]
        exact fun hh => h hh.symm
      simp only [List.map_cons, hp, if_true]
      simp only [List.find?_cons, h1, h2]
      exact ih
    · simp only [List.map_cons, hp, if_false, Bool.false_eq_true]
      by_cases hq : (p.1 == k') = true
      · simp only [List.find?_cons, hq]
      · simp only [List.find?_cons, hq]
        exact ih

theorem dictGet_insert_self {V : Type} (d : List (String × V)) (k : String)
    (v : V) : dictGet (dictInsert d k v) k = some v := by
  unfold dictInsert
  by_cases hany : d.any (fun p => p.1 == k) = true
  · simp only [hany, if_true]
    unfold dictGet
    rw [find?_overwrite_self d k v hany]
    rfl
  · simp only [hany, if_false, Bool.false_eq_true]
    have hfind : d.find? (fun p => p.1 == k) = none := by
      rw [List.find?_eq_none]
      intro p hp hpk
      exact hany (List.any_eq_true.2 ⟨p, hp, hpk⟩)
    unfold dictGet
    rw [List.find?_append, hfind]
    simp

theorem dictGet_insert_ne {V : Type} (d : List (String × V)) (k k' : String)
    (v : V) (h : k' ≠ k) : dictGet (dictInsert d k v) k' = dictGet d k' := by
  unfold dictInsert
  by_cases hany : d.any (fun p => p.1 == k) = true
  · simp only [hany, if_true]
    unfold dictGet
    rw [find?_overwrite_ne d k k' v h]
  · simp only [hany, if_false, Bool.false_eq_true]
    unfold dictGet
    rw [List.find?_append]
    have hone : List.find? (fun p => p.1 == k') [(k, v)] = none := by
      rw [List.find?_eq_none]
      intro p hp hpk
      simp only [List.mem_singleton] at hp
      rw [hp] at hpk
      simp only [beq_iff_eq] at hpk
      exact h hpk.symm
    rw [hone]
    simp

theorem dictGet_merge_of_src_none {V : Type} (src : List (String × V)) :
    ∀ (dst : List (String × V)) (k : String), dictGet src k = none →
      dictGet (dictMerge dst src) k = dictGet dst k := by
  induction src with
  | nil => intro dst k _; rfl
  | cons p rest ih =>
    intro dst k h
    by_cases hp : (p.1 == k) = true
    · exfalso
      unfold dictGet at h
      simp only [List.find?_cons, hp] at h
      simp at h
    · have h' : dictGet rest k = none := by
        unfold dictGet at h ⊢
        simp only [List.find?_cons, hp] at h
        exact h
      have hkp : k ≠ p.1 := by
        intro hh
        apply hp
        simp [hh]
      calc dictGet (dictMerge dst (p :: rest)) k
          = dictGet (dictMerge (dictInsert dst p.1 p.2) rest) k := rfl
        _ = dictGet (dictInsert dst p.1 p.2) k := ih _ k h'
        _ = dictGet dst k := dictGet_insert_ne dst p.1 k p.2 hkp

theorem dictGet_merge_of_src_some {V : Type} (src : List (String × V)) :
    ∀ (dst : List (String × V)) (k : String) (v : V),
      (src.map Prod.fst).Nodup → dictGet src k = some v →
      dictGet (dictMerge dst src) k = some v := by
  induction src with
  | nil =>
    intro dst k v _ h
    simp [dictGet] at h
  | cons p rest ih =>
    intro dst k v hnd h
    rw [List.map_cons] at hnd
    obtain ⟨hpnotin, hnd'⟩ := List.nodup_cons.1 hnd
    by_cases hp : (p.1 == k) = true
    · have hpk : p.1 = k := by simpa using hp
      have hv : p.2 = v := by
        unfold dictGet at h
        simp only [List.find?_cons, hp] at h
        simpa using h
      have hrest : dictGet rest k = none := by
        apply dictGet_eq_none_of_not_mem
        rw [← hpk]
        exact hpnotin
      calc dictGet (dictMerge dst (p :: rest)) k
          = dictGet (dictMerge (dictInsert dst p.1 p.2) rest) k := rfl
        _ = dictGet (dictInsert dst p.1 p.2) k :=
            dictGet_merge_of_src_none rest _ k hrest
        _ = some v := by rw [hpk, dictGet_insert_self, hv]
    · have h' : dictGet rest k = some v := by
        unfold dictGet at h ⊢
        simp only [List.find?_cons, hp] at h
        exact h
      exact ih _ k v hnd' h'
theorem double_save_at_self {V : Type} (st : Store V) (E : String)
    (p1 p2 : List (String × V)) :
    (save_operator_data (save_operator_data st E p1) E p2) E =
      some (dictMerge (dictMerge ((st E).getD []) p1) p2) := by
  simp [save_operator_data]

/-- C1: Record Store merge semantics. After `save_operator_data(E, p1)`
followed by `save_operator_data(E, p2)`, the persisted record for `E`
contains every field of `p1` and of `p2`: a field of `p2` has `p2`'s value
(the later merge wins), a field of `p1` absent from `p2` keeps `p1`'s
value, and when the two field sets are disjoint and no record existed
before, the result is exactly their union (every field reads as in `p1`
or, failing that, as in `p2`, and fields in neither are absent). -/
theorem merge_semantics {V : Type} (st : Store V) (E : String)
    (p1 p2 : List (String × V))
    (h1 : (p1.map Prod.fst).Nodup) (h2 : (p2.map Prod.fst).Nodup) :
    (∀ f v, dictGet p2 f = some v →
      storeField (save_operator_data (save_operator_data st E p1) E p2) E f
        = some v) ∧
    (∀ f v, dictGet p2 f = none → dictGet p1 f = some v →
      storeField (save_operator_data (save_operator_data st E p1) E p2) E f
        = some v) ∧
    (st E = none → (∀ f, dictGet p1 f = none ∨ dictGet p2 f = none) →
      ∀ f, storeField (save_operator_data (save_operator_data st E p1) E p2) E f
        = match dictGet p1 f with
          | some v => some v
          | none => dictGet p2 f) := by
  have hE := double_save_at_self st E p1 p2
  refine ⟨?_, ?_, ?_⟩
  · intro f v hv
    unfold storeField
    rw [hE]
    exact dictGet_merge_of_src_some p2 _ f v h2 hv
  · intro f v hnone hv
    unfold storeField
    rw [hE]
    simp only [Option.getD_some]
    rw [dictGet_merge_of_src_none p2 _ f hnone]
    exact dictGet_merge_of_src_some p1 _ f v h1 hv
  · intro hfresh hdis f
    unfold storeField
    rw [hE, hfresh]
    simp only [Option.getD_some]
    cases hd : dictGet p1 f with
    | some v =>
      have hd2 : dictGet p2 f = none := by
        cases hdis f with
        | inl hl => rw [hl] at hd; exact absurd hd (by simp)
        | inr hr => exact hr
      rw [dictGet_merge_of_src_none p2 _ f hd2]
      exact dictGet_merge_of_src_some p1 _ f v h1 hd
    | none =>
      cases hd2 : dictGet p2 f with
      | some w => exact dictGet_merge_of_src_some p2 _ f w h2 hd2
      | none =>
        rw [dictGet_merge_of_src_none p2 _ f hd2,
          dictGet_merge_of_src_none p1 _ f hd]
        rfl

theorem merge_semantics_witness :
    storeField
      (save_operator_data
        (save_operator_data (emptyStore (V := Nat)) "Aak" [("a", 1), ("b", 2)])
        "Aak" [("b", 3), ("c", 4)])
      "Aak" "b" = some 3 :=
  (merge_semantics emptyStore "Aak" [("a", 1), ("b", 2)] [("b", 3), ("c", 4)]
    (by decide) (by decide)).1 "b" 3 (by decide)
/-- C3: required-locator failure signalling. A `safe_find_element` call
with `optional=False` on a selector matching nothing (every probe raises a
transient exception) returns `None` with the failure message printed — the
signal the caller must handle — and only after exactly
`MAX_RETRY_ATTEMPTS` probes, never before (sleeping between the
consecutive attempts). -/
theorem required_locator_signal {A : Type} (query : Nat → Option A)
    (h : ∀ i, query i = none) :
    safe_find_element query false =
      ⟨none, MAX_RETRY_ATTEMPTS, MAX_RETRY_ATTEMPTS - 1, true⟩ := by
  simp [safe_find_element, MAX_RETRY_ATTEMPTS, sfeLoop, h]

theorem required_locator_signal_witness :
    safe_find_element (fun _ => (none : Option Unit)) false =
      ⟨none, MAX_RETRY_ATTEMPTS, MAX_RETRY_ATTEMPTS - 1, true⟩ :=
  required_locator_signal (fun _ => none) (fun _ => rfl)

/-- C6: optional-locator exhaustion. A `safe_find_element` call with
`optional=True` on a selector matching nothing returns `None` (Missing)
without printing/signalling any failure, after exactly
`MAX_RETRY_ATTEMPTS` probes, sleeping the per-attempt delay between
consecutive attempts (`MAX_RETRY_ATTEMPTS - 1` sleeps). -/
theorem optional_locator_missing {A : Type} (query : Nat → Option A)
    (h : ∀ i, query i = none) :
    safe_find_element query true =
      ⟨none, MAX_RETRY_ATTEMPTS, MAX_RETRY_ATTEMPTS - 1, false⟩ := by
  simp [safe_find_element, MAX_RETRY_ATTEMPTS, sfeLoop, h]

theorem optional_locator_missing_witness :
    safe_find_element (fun _ => (none : Option Unit)) true =
      ⟨none, MAX_RETRY_ATTEMPTS, MAX_RETRY_ATTEMPTS - 1, false⟩ :=
  optional_locator_missing (fun _ => none) (fun _ => rfl)

/-- C9: `safe_find_elements` behaviour. When the query succeeds on the
first attempt — in particular a scoped `parent.find_elements` matching
zero nodes, which returns `[]` without raising — the call returns that
(possibly empty) list immediately: one probe, no retry, no sleep. The
loop re-attempts only when the query raises one of the three transient
exceptions, and on exhaustion it returns the empty list rather than
raising. -/
theorem locate_all_behavior {A : Type} (query : Nat → Except Unit (List A)) :
    (∀ es, query 0 = .ok es → safe_find_elements query = ⟨es, 1, 0⟩) ∧
    ((∀ i, query i = .error ()) →
      safe_find_elements query =
        ⟨[], MAX_RETRY_ATTEMPTS, MAX_RETRY_ATTEMPTS - 1⟩) := by
  constructor
  · intro es h0
    simp [safe_find_elements, MAX_RETRY_ATTEMPTS, sfesLoop, h0]
  · intro h
    simp [safe_find_elements, MAX_RETRY_ATTEMPTS, sfesLoop, h]

theorem locate_all_behavior_witness :
    safe_find_elements (fun _ => Except.ok ([] : List Unit)) = ⟨[], 1, 0⟩ ∧
    safe_find_elements (fun _ => (Except.error () : Except Unit (List Unit))) =
      ⟨[], MAX_RETRY_ATTEMPTS, MAX_RETRY_ATTEMPTS - 1⟩ :=
  ⟨(locate_all_behavior (fun _ => Except.ok [])).1 [] rfl,
    (locate_all_behavior (fun _ => Except.error ())).2 (fun _ => rfl)⟩

theorem sfeLoop_probes_le {A : Type} (query : Nat → Option A)
    (optional : Bool) :
    ∀ (remaining probes sleeps : Nat),
      (sfeLoop query optional remaining probes sleeps).probes ≤
        probes + remaining := by
  intro remaining
  induction remaining with
  | zero =>
    intro probes sleeps
    simp [sfeLoop]
  | succ n ih =>
    intro probes sleeps
    simp only [sfeLoop]
    cases hq : query probes with
    | some e => simp
    | none =>
      by_cases hn : n = 0
      · simp [hn]
      · simp only [hn, if_false]
        have := ih (probes + 1) (sleeps + 1)
        omega

theorem sfesLoop_probes_le {A : Type} (query : Nat → Except Unit (List A)) :
    ∀ (remaining probes sleeps : Nat),
      (sfesLoop query remaining probes sleeps).probes ≤ probes + remaining := by
  intro remaining
  induction remaining with
  | zero =>
    intro probes sleeps
    simp [sfesLoop]
  | succ n ih =>
    intro probes sleeps
    simp only [sfesLoop]
    cases hq : query probes with
    | ok es => simp
    | error e =>
      by_cases hn : n = 0
      · simp [hn]
      · simp only [hn, if_false]
        have := ih (probes + 1) (sleeps + 1)
        omega

theorem lopLoop_probes_le (attempt : Nat → Bool) :
    ∀ (remaining probes sleeps : Nat),
      (lopLoop attempt remaining probes sleeps).2.1 ≤ probes + remaining := by
  intro remaining
  induction remaining with
  | zero =>
    intro probes sleeps
    simp [lopLoop]
  | succ n ih =>
    intro probes sleeps
    simp only [lopLoop]
    by_cases ha : attempt probes = true
    · simp [ha]
    · simp only [ha, if_false, Bool.false_eq_true]
      by_cases hn : n = 0
      · simp [hn]
      · simp only [hn, if_false]
        have := ih (probes + 1) (sleeps + 1)
        omega

theorem gaoLoop_probes_le (attempt : Nat → Except Unit (List String)) :
    ∀ (remaining probes : Nat),
      (gaoLoop attempt remaining probes).2 ≤ probes + remaining := by
  intro remaining
  induction remaining with
  | zero =>
    intro probes
    simp [gaoLoop]
  | succ n ih =>
    intro probes
    simp only [gaoLoop]
    cases hq : attempt probes with
    | ok names =>
      by_cases hemp : names.isEmpty
      · simp only [hemp, if_true]
        have := ih (probes + 1)
        omega
      · simp [hemp]
    | error e =>
      show (gaoLoop attempt n (probes + 1)).2 ≤ probes + (n + 1)
      have := ih (probes + 1)
      omega

/-- C8: bounded retries. Every retry loop of the engine — single-element
location (`safe_find_element`), multi-element location
(`safe_find_elements`), page load (`load_operator_page`) and the
operator-list fetch (`get_all_operators`) — performs at most
`MAX_RETRY_ATTEMPTS` attempts, whatever the environment does; no loop
retries indefinitely on persistent failure. -/
theorem bounded_retries :
    (∀ (A : Type) (query : Nat → Option A) (optional : Bool),
      (safe_find_element query optional).probes ≤ MAX_RETRY_ATTEMPTS) ∧
    (∀ (A : Type) (query : Nat → Except Unit (List A)),
      (safe_find_elements query).probes ≤ MAX_RETRY_ATTEMPTS) ∧
    (∀ (attempt : Nat → Bool),
      (load_operator_page attempt).2.1 ≤ MAX_RETRY_ATTEMPTS) ∧
    (∀ (attempt : Nat → Except Unit (List String)),
      (get_all_operators attempt).2 ≤ MAX_RETRY_ATTEMPTS) := by
  refine ⟨?_, ?_, ?_, ?_⟩
  · intro A query optional
    have := sfeLoop_probes_le query optional MAX_RETRY_ATTEMPTS 0 0
    simpa [safe_find_element] using this
  · intro A query
    have := sfesLoop_probes_le query MAX_RETRY_ATTEMPTS 0 0
    simpa [safe_find_elements] using this
  · intro attempt
    have := lopLoop_probes_le attempt MAX_RETRY_ATTEMPTS 0 0
    simpa [load_operator_page] using this
  · intro attempt
    have := gaoLoop_probes_le attempt MAX_RETRY_ATTEMPTS 0
    simpa [get_all_operators] using this
theorem save_preserves_isSome {V : Type} (st : Store V) (name E : String)
    (d : List (String × V)) (h : (st E).isSome = true) :
    ((save_operator_data st name d) E).isSome = true := by
  unfold save_operator_data
  by_cases hE : E = name
  · simp [hE]
  · simpa [hE] using h

theorem run_pipeline_preserves_isSome (name E : String) :
    ∀ (outs : List (Option OpRecord)) (st : Store FieldValue),
      (st E).isSome = true → ((run_pipeline st name outs) E).isSome = true := by
  intro outs
  induction outs with
  | nil => intro st h; exact h
  | cons o rest ih =>
    intro st h
    cases o with
    | none => exact ih st h
    | some data => exact ih _ (save_preserves_isSome st name E data h)

theorem process_operator_success_eq_loadOk (st : Store FieldValue)
    (name : String) (env : OperatorRun) (clean : Bool) :
    (process_operator st name env clean).2.1 = env.loadOk := by
  unfold process_operator
  cases h : env.loadOk with
  | true => simp [h]
  | false => simp [h]

theorem process_operator_preserves_isSome (st : Store FieldValue)
    (name E : String) (env : OperatorRun) (h : (st E).isSome = true) :
    ((process_operator st name env false).1 E).isSome = true := by
  unfold process_operator
  cases hl : env.loadOk with
  | true =>
    simp only [hl, if_true, if_false, Bool.false_eq_true]
    exact run_pipeline_preserves_isSome name E env.outcomes _
      (save_preserves_isSome st name E _ h)
  | false =>
    simpa [hl] using h

/-- C2 counterexample: the claimed invariant "a persisted record exists
iff at least one extractor unit has ever succeeded" is false on the code:
after a `process_operator` run whose page load succeeds but whose
extractor units all fail (zero merges from the pipeline,
`pipelineMerges = 0`), the persisted record for the operator exists,
because `operator_info` writes `{"info": {}}` right after the load and
before any extractor runs. -/
theorem record_without_extractor_success :
    pipelineMerges [none, none, none] = 0 ∧
    ((process_operator emptyStore "Aak"
        ⟨true, [none, none, none]⟩ true).1 "Aak").isSome = true := by
  constructor
  · rfl
  · rfl

/-- C2 (amended): starting from a store with no record for `E`, a
persisted record for `E` exists after `process_operator` iff the page
load for `E` succeeded — `operator_info` initializes the record
immediately after a successful load, before (and regardless of) any
extractor success, and no record is created when the load fails. -/
theorem persisted_record_iff_load_success (st : Store FieldValue)
    (E : String) (env : OperatorRun) (clean : Bool) (h : st E = none) :
    ((process_operator st E env clean).1 E).isSome = env.loadOk := by
  unfold process_operator
  cases hl : env.loadOk with
  | true =>
    simp only [hl, if_true]
    apply run_pipeline_preserves_isSome
    simp [save_operator_data]
  | false =>
    simp only [hl, if_false, Bool.false_eq_true]
    cases hc : clean with
    | true => simp [cleanup_operator_files]
    | false => simp [h]

theorem persisted_record_iff_load_success_witness :
    ((process_operator emptyStore "Aak"
        ⟨false, []⟩ false).1 "Aak").isSome = false :=
  persisted_record_iff_load_success emptyStore "Aak" ⟨false, []⟩ false rfl
theorem paoLoop_counts :
    ∀ (ops : List (String × OperatorRun)) (st : Store FieldValue)
      (a b : Nat),
      (paoLoop st a b ops).2.1 = a + ops.countP (fun op => op.2.loadOk) ∧
      (paoLoop st a b ops).2.2 = b + ops.countP (fun op => !op.2.loadOk) := by
  intro ops
  induction ops with
  | nil =>
    intro st a b
    simp [paoLoop]
  | cons op rest ih =>
    intro st a b
    have hs := process_operator_success_eq_loadOk st op.1 op.2 false
    cases hl : op.2.loadOk with
    | true =>
      rw [hl] at hs
      have e1 : (op :: rest).countP (fun op => op.2.loadOk) =
          rest.countP (fun op => op.2.loadOk) + 1 := by
        simp [List.countP_cons, hl]
      have e2 : (op :: rest).countP (fun op => !op.2.loadOk) =
          rest.countP (fun op => !op.2.loadOk) := by
        simp [List.countP_cons, hl]
      simp only [paoLoop, hs, if_true]
      obtain ⟨ih1, ih2⟩ :=
        ih ((process_operator st op.1 op.2 false).1) (a + 1) b
      constructor
      · rw [ih1, e1]; omega
      · rw [ih2, e2]
    | false =>
      rw [hl] at hs
      have e1 : (op :: rest).countP (fun op => op.2.loadOk) =
          rest.countP (fun op => op.2.loadOk) := by
        simp [List.countP_cons, hl]
      have e2 : (op :: rest).countP (fun op => !op.2.loadOk) =
          rest.countP (fun op => !op.2.loadOk) + 1 := by
        simp [List.countP_cons, hl]
      simp only [paoLoop, hs, if_false, Bool.false_eq_true]
      obtain ⟨ih1, ih2⟩ :=
        ih ((process_operator st op.1 op.2 false).1) a (b + 1)
      constructor
      · rw [ih1, e1]
      · rw [ih2, e2]; omega

/-- C4: batch entity classification. An entity is classified succeeded
(`process_operator` returns `True`) iff at least one record was merged
into the Record Store for it during the run (the `operator_info`
initialization merge plus one merge per successful extractor; a failed
load performs none). The batch tally counts exactly the per-entity
classifications: `successful` = number of operators whose load succeeded,
`failed` = the rest; in particular for `[A, B, C]` with B's navigation
failing the tally is (2 succeeded, 1 failed). -/
theorem batch_classification :
    (∀ (st : Store FieldValue) (name : String) (env : OperatorRun)
      (clean : Bool),
      ((process_operator st name env clean).2.1 = true ↔
        1 ≤ (process_operator st name env clean).2.2)) ∧
    (∀ (st : Store FieldValue) (ops : List (String × OperatorRun))
      (clean : Bool),
      (process_all_operators st ops clean).2.1 =
        ops.countP (fun op => op.2.loadOk) ∧
      (process_all_operators st ops clean).2.2 =
        ops.countP (fun op => !op.2.loadOk)) ∧
    ((process_all_operators emptyStore
        [("A", ⟨true, []⟩), ("B", ⟨false, []⟩), ("C", ⟨true, []⟩)]
        false).2 = (2, 1)) := by
  refine ⟨?_, ?_, ?_⟩
  · intro st name env clean
    unfold process_operator
    cases hl : env.loadOk with
    | true => simp [hl]
    | false => simp [hl]
  · intro st ops clean
    unfold process_all_operators
    cases hc : clean with
    | true =>
      simp only [hc, if_true]
      simpa using paoLoop_counts ops (cleanup_operator_files st none) 0 0
    | false =>
      simp only [hc, if_false, Bool.false_eq_true]
      simpa using paoLoop_counts ops st 0 0
  · rfl

theorem dictGet_merge_merge_some_second {V : Type}
    (base r1 r2 : List (String × V)) (f : String) (v : V)
    (h2 : (r2.map Prod.fst).Nodup) (hv : dictGet r2 f = some v) :
    dictGet (dictMerge (dictMerge base r1) r2) f = some v :=
  dictGet_merge_of_src_some r2 _ f v h2 hv

theorem dictGet_merge_merge_some_first {V : Type}
    (base r1 r2 : List (String × V)) (f : String) (v : V)
    (h1 : (r1.map Prod.fst).Nodup) (hnone : dictGet r2 f = none)
    (hv : dictGet r1 f = some v) :
    dictGet (dictMerge (dictMerge base r1) r2) f = some v := by
  rw [dictGet_merge_of_src_none r2 _ f hnone]
  exact dictGet_merge_of_src_some r1 _ f v h1 hv

/-- C5: pipeline isolation. A failing extractor unit (outcome `none`,
its exception swallowed by its own `except` handler) is a no-op in the
pipeline: running `pre ++ [failing unit] ++ post` equals running `pre`
then `post`, so every later unit still executes against the store
produced by the earlier ones. In particular, for three units where
unit 2 fails, units 1 and 3 still produce and merge their records: every
field of unit 3's record is in the persisted record with unit 3's value,
and every field of unit 1's record not overwritten by unit 3 keeps
unit 1's value. -/
theorem pipeline_isolation (st : Store FieldValue) (E : String)
    (pre post : List (Option OpRecord)) (r1 r3 : OpRecord)
    (h1 : (r1.map Prod.fst).Nodup) (h3 : (r3.map Prod.fst).Nodup) :
    (run_pipeline st E (pre ++ none :: post) =
      run_pipeline (run_pipeline st E pre) E post) ∧
    (∀ f v, dictGet r3 f = some v →
      storeField (run_pipeline st E [some r1, none, some r3]) E f = some v) ∧
    (∀ f v, dictGet r3 f = none → dictGet r1 f = some v →
      storeField (run_pipeline st E [some r1, none, some r3]) E f
        = some v) := by
  have hskip : ∀ (pre : List (Option OpRecord)) (st : Store FieldValue),
      run_pipeline st E (pre ++ none :: post) =
        run_pipeline (run_pipeline st E pre) E post := by
    intro pre
    induction pre with
    | nil => intro st; rfl
    | cons o rest ih =>
      intro st
      cases o with
      | none => exact ih st
      | some data => exact ih _
  have heq : run_pipeline st E [some r1, none, some r3] =
      save_operator_data (save_operator_data st E r1) E r3 := rfl
  have hE := double_save_at_self st E r1 r3
  refine ⟨hskip pre st, ?_, ?_⟩
  · intro f v hv
    rw [heq]
    unfold storeField
    rw [hE]
    simp only [Option.getD_some]
    exact dictGet_merge_merge_some_second _ r1 r3 f v h3 hv
  · intro f v hnone hv
    rw [heq]
    unfold storeField
    rw [hE]
    simp only [Option.getD_some]
    exact dictGet_merge_merge_some_first _ r1 r3 f v h1 hnone hv

theorem pipeline_isolation_witness :
    storeField
      (run_pipeline emptyStore "Aak"
        [some [("stats", FieldValue.str "s")], none,
          some [("skills", FieldValue.str "k")]])
      "Aak" "stats" = some (FieldValue.str "s") :=
  (pipeline_isolation emptyStore "Aak" [] [] [("stats", FieldValue.str "s")]
    [("skills", FieldValue.str "k")] (by decide) (by decide)).2.2 "stats"
    (FieldValue.str "s") rfl rfl
theorem paoLoop_preserves_isSome (E : String) :
    ∀ (ops : List (String × OperatorRun)) (st : Store FieldValue)
      (a b : Nat), (st E).isSome = true →
      ((paoLoop st a b ops).1 E).isSome = true := by
  intro ops
  induction ops with
  | nil => intro st a b h; exact h
  | cons op rest ih =>
    intro st a b h
    have hkeep := process_operator_preserves_isSome st op.1 E op.2 h
    cases hs : (process_operator st op.1 op.2 false).2.1 with
    | true =>
      simp only [paoLoop, hs, if_true]
      exact ih _ _ _ hkeep
    | false =>
      simp only [paoLoop, hs, if_false, Bool.false_eq_true]
      exact ih _ _ _ hkeep

/-- C7: clear frame effect. `cleanup_operator_files` with an entityId
removes exactly that record and leaves every other record untouched; with
no entityId it removes every record. No other store operation deletes a
record: `save_operator_data` never turns an existing record into a
missing one, and a `process_operator` or `process_all_operators` run that
does not request cleanup (`clean_before_run=False`) preserves every
existing record (when cleanup is requested, the deletion happens through
the explicit `cleanup_operator_files` call itself). -/
theorem clear_frame_effect :
    (∀ (st : Store FieldValue) (E E' : String),
      cleanup_operator_files st (some E) E' = if E' = E then none else st E') ∧
    (∀ (st : Store FieldValue) (E' : String),
      cleanup_operator_files st none E' = none) ∧
    (∀ (st : Store FieldValue) (name E' : String)
      (d : List (String × FieldValue)), (st E').isSome = true →
      ((save_operator_data st name d) E').isSome = true) ∧
    (∀ (st : Store FieldValue) (name E' : String) (env : OperatorRun),
      (st E').isSome = true →
      ((process_operator st name env false).1 E').isSome = true) ∧
    (∀ (st : Store FieldValue) (ops : List (String × OperatorRun))
      (E' : String), (st E').isSome = true →
      ((process_all_operators st ops false).1 E').isSome = true) := by
  refine ⟨?_, ?_, ?_, ?_, ?_⟩
  · intro st E E'
    rfl
  · intro st E'
    rfl
  · intro st name E' d h
    exact save_preserves_isSome st name E' d h
  · intro st name E' env h
    exact process_operator_preserves_isSome st name E' env h
  · intro st ops E' h
    unfold process_all_operators
    simpa using paoLoop_preserves_isSome E' ops st 0 0 h

theorem clear_frame_effect_witness :
    ((process_operator
        (save_operator_data emptyStore "Exusiai" [("info", FieldValue.vmap [])])
        "Aak" ⟨true, [some [("stats", FieldValue.str "s")]]⟩ false).1
      "Exusiai").isSome = true :=
  clear_frame_effect.2.2.2.1
    (save_operator_data emptyStore "Exusiai" [("info", FieldValue.vmap [])])
    "Aak" "Exusiai" ⟨true, [some [("stats", FieldValue.str "s")]]⟩ rfl

theorem drop_take_join {M : Type} (ms : List M) (p : Nat) :
    ∀ (k i : Nat),
      ((List.range k).map (fun t => (ms.drop (i + t * p)).take p)).flatten =
        (ms.drop i).take (k * p) := by
  intro k
  induction k with
  | zero => intro i; simp
  | succ k ih =>
    intro i
    rw [List.range_succ_eq_map]
    simp only [List.map_cons, List.map_map, List.flatten_cons]
    have hcong : (List.range k).map
        ((fun t => (ms.drop (i + t * p)).take p) ∘ Nat.succ) =
        (List.range k).map (fun t => (ms.drop ((i + p) + t * p)).take p) := by
      apply List.map_congr_left
      intro t _
      have harith : i + Nat.succ t * p = i + p + t * p := by
        rw [Nat.succ_mul]; ring
      simp only [Function.comp]
      rw [harith]
    rw [hcong, ih (i + p)]
    have h1 : (k + 1) * p = p + k * p := by ring
    rw [h1, List.take_add]
    have h2 : (ms.drop i).drop p = ms.drop (i + p) := by
      rw [List.drop_drop]
    rw [h2]
    simp

/-- C10: mastery-cost distribution. `extract_mastery_upgrades` assigns to
the nine (skill, mastery) slots, in the fixed order
Skill1..Skill3 x M1..M3, exactly `n / 9` consecutive materials each (slot
`k` gets the `k`-th consecutive block), the flattened assignment is the
first `9 * (n / 9)` materials — so the trailing `n % 9` materials are
discarded — and every slot receives `n / 9` materials, hence nothing when
`n < 9`. -/
theorem mastery_distribution {M : Type} (ms : List M) :
    extract_mastery_upgrades ms =
      [(("Skill1", "M1"), masterySlice ms 0), (("Skill1", "M2"), masterySlice ms 1),
       (("Skill1", "M3"), masterySlice ms 2), (("Skill2", "M1"), masterySlice ms 3),
       (("Skill2", "M2"), masterySlice ms 4), (("Skill2", "M3"), masterySlice ms 5),
       (("Skill3", "M1"), masterySlice ms 6), (("Skill3", "M2"), masterySlice ms 7),
       (("Skill3", "M3"), masterySlice ms 8)] ∧
    ((extract_mastery_upgrades ms).map Prod.snd).flatten =
      ms.take (9 * (ms.length / 9)) ∧
    (extract_mastery_upgrades ms).map (fun pr => pr.2.length) =
      [ms.length / 9, ms.length / 9, ms.length / 9, ms.length / 9,
       ms.length / 9, ms.length / 9, ms.length / 9, ms.length / 9,
       ms.length / 9] := by
  have h9 : ms.length / 9 * 9 ≤ ms.length := Nat.div_mul_le_self ms.length 9
  have hmain : extract_mastery_upgrades ms =
      [(("Skill1", "M1"), masterySlice ms 0), (("Skill1", "M2"), masterySlice ms 1),
       (("Skill1", "M3"), masterySlice ms 2), (("Skill2", "M1"), masterySlice ms 3),
       (("Skill2", "M2"), masterySlice ms 4), (("Skill2", "M3"), masterySlice ms 5),
       (("Skill3", "M1"), masterySlice ms 6), (("Skill3", "M2"), masterySlice ms 7),
       (("Skill3", "M3"), masterySlice ms 8)] := by
    by_cases hper : 0 < ms.length / 9
    · have m1 : min (0 + ms.length / 9) ms.length = 0 + ms.length / 9 := by omega
      have m2 : min (0 + ms.length / 9 + ms.length / 9) ms.length =
          0 + ms.length / 9 + ms.length / 9 := by omega
      have m3 : min (0 + ms.length / 9 + ms.length / 9 + ms.length / 9) ms.length =
          0 + ms.length / 9 + ms.length / 9 + ms.length / 9 := by omega
      have m4 : min (0 + ms.length / 9 + ms.length / 9 + ms.length / 9 +
            ms.length / 9) ms.length =
          0 + ms.length / 9 + ms.length / 9 + ms.length / 9 + ms.length / 9 := by
        omega
      have m5 : min (0 + ms.length / 9 + ms.length / 9 + ms.length / 9 +
            ms.length / 9 + ms.length / 9) ms.length =
          0 + ms.length / 9 + ms.length / 9 + ms.length / 9 + ms.length / 9 +
            ms.length / 9 := by omega
      have m6 : min (0 + ms.length / 9 + ms.length / 9 + ms.length / 9 +
            ms.length / 9 + ms.length / 9 + ms.length / 9) ms.length =
          0 + ms.length / 9 + ms.length / 9 + ms.length / 9 + ms.length / 9 +
            ms.length / 9 + ms.length / 9 := by omega
      have m7 : min (0 + ms.length / 9 + ms.length / 9 + ms.length / 9 +
            ms.length / 9 + ms.length / 9 + ms.length / 9 + ms.length / 9)
            ms.length =
          0 + ms.length / 9 + ms.length / 9 + ms.length / 9 + ms.length / 9 +
            ms.length / 9 + ms.length / 9 + ms.length / 9 := by omega
      have m8 : min (0 + ms.length / 9 + ms.length / 9 + ms.length / 9 +
            ms.length / 9 + ms.length / 9 + ms.length / 9 + ms.length / 9 +
            ms.length / 9) ms.length =
          0 + ms.length / 9 + ms.length / 9 + ms.length / 9 + ms.length / 9 +
            ms.length / 9 + ms.length / 9 + ms.length / 9 + ms.length / 9 := by
        omega
      have m9 : min (0 + ms.length / 9 + ms.length / 9 + ms.length / 9 +
            ms.length / 9 + ms.length / 9 + ms.length / 9 + ms.length / 9 +
            ms.length / 9 + ms.length / 9) ms.length =
          0 + ms.length / 9 + ms.length / 9 + ms.length / 9 + ms.length / 9 +
            ms.length / 9 + ms.length / 9 + ms.length / 9 + ms.length / 9 +
            ms.length / 9 := by omega
      simp only [extract_mastery_upgrades, skillKeys, masteryKeys,
        List.foldl_cons, List.foldl_nil, hper, if_true]
      rw [m1, m2, m3, m4, m5, m6, m7, m8, m9]
      simp only [Nat.add_sub_cancel_left, Nat.sub_zero, Nat.zero_add,
        List.drop_zero, List.nil_append, List.append_assoc,
        List.singleton_append, List.cons_append]
      simp only [masterySlice]
      have s1 : 1 * (ms.length / 9) = ms.length / 9 := by ring
      have s2 : 2 * (ms.length / 9) = ms.length / 9 + ms.length / 9 := by ring
      have s3 : 3 * (ms.length / 9) = ms.length / 9 + ms.length / 9 +
          ms.length / 9 := by ring
      have s4 : 4 * (ms.length / 9) = ms.length / 9 + ms.length / 9 +
          ms.length / 9 + ms.length / 9 := by ring
      have s5 : 5 * (ms.length / 9) = ms.length / 9 + ms.length / 9 +
          ms.length / 9 + ms.length / 9 + ms.length / 9 := by ring
      have s6 : 6 * (ms.length / 9) = ms.length / 9 + ms.length / 9 +
          ms.length / 9 + ms.length / 9 + ms.length / 9 + ms.length / 9 := by
        ring
      have s7 : 7 * (ms.length / 9) = ms.length / 9 + ms.length / 9 +
          ms.length / 9 + ms.length / 9 + ms.length / 9 + ms.length / 9 +
          ms.length / 9 := by ring
      have s8 : 8 * (ms.length / 9) = ms.length / 9 + ms.length / 9 +
          ms.length / 9 + ms.length / 9 + ms.length / 9 + ms.length / 9 +
          ms.length / 9 + ms.length / 9 := by ring
      rw [s1, s2, s3, s4, s5, s6, s7, s8]
      simp [Nat.zero_mul, List.drop_zero]
    · have h0 : ms.length / 9 = 0 := by omega
      simp [extract_mastery_upgrades, hper, skillKeys, masteryKeys,
        masterySlice, h0]
  refine ⟨hmain, ?_, ?_⟩
  · rw [hmain]
    have hr : List.range 9 = [0, 1, 2, 3, 4, 5, 6, 7, 8] := rfl
    have hj := drop_take_join ms (ms.length / 9) 9 0
    rw [hr] at hj
    simp only [List.map_cons, List.map_nil, Nat.zero_add] at hj
    simp only [List.map_cons, List.map_nil, masterySlice]
    rw [hj]
    simp
  · rw [hmain]
    simp only [List.map_cons, List.map_nil, masterySlice, List.length_take,
      List.length_drop, List.cons.injEq, and_true]
    omega
end Llamiya
